import Mathlib

/-!
Verification development for the Zerv request dispatcher (src/server.ts).

The TypeScript source is shallowly embedded: JS strings become Lean
String values manipulated through their character lists (all header
names and paths of interest are ASCII, where JS UTF-16 units coincide
with characters); JS objects become insertion-ordered association
lists; the Bun collaborators (filesystem existence checks, the upstream
fetch, the upgrade hook) become an explicit environment record; a
rejected promise that the source never catches becomes an Except error
that propagates to the caller.
-/

namespace Zerv

/-! JS string primitives used by server.ts, modelled on character lists. -/

def dq : Char := Char.ofNat 34

def sq : Char := Char.ofNat 39

def isQuote (c : Char) : Bool := c = dq || c = sq

/-- JS s.startsWith(pre). -/
def jsStartsWith (s pre : String) : Bool := pre.data.isPrefixOf s.data

/-- JS s.endsWith(suf). -/
def jsEndsWith (s suf : String) : Bool := suf.data.isSuffixOf s.data

/-- JS s.length (UTF-16 units; ASCII inputs make this the character count). -/
def jsLen (s : String) : Nat := s.data.length

/-- JS s.slice(i) for a nonnegative index. -/
def jsSlice (s : String) (i : Nat) : String := String.mk (s.data.drop i)

/-- JS s.toLowerCase (ASCII range, which covers the header names used). -/
def jsToLower (s : String) : String := String.mk (s.data.map Char.toLower)

/-- JS s.split(sep) with a single-character separator, on character lists. -/
def splitCh (c : Char) : List Char → List (List Char)
  | [] => [[]]
  | a :: rest =>
    match splitCh c rest with
    | [] => [[]]
    | h :: t => if a = c then [] :: h :: t else (a :: h) :: t

/-- JS s.split(" "): empty string yields [""], separators are kept exact. -/
def jsSplitSpace (s : String) : List String :=
  (splitCh ' ' s.data).map String.mk

/-- First index of character c in l, as JS indexOf but with Option for absence. -/
def firstIdx (c : Char) : List Char → Option Nat
  | [] => none
  | a :: rest => if a = c then some 0 else (firstIdx c rest).map (· + 1)

/-- First index at which pat occurs in l (JS indexOf for substrings). -/
def subIdx (pat : List Char) : List Char → Nat → Option Nat
  | [], i => if pat = [] then some i else none
  | a :: rest, i =>
    if pat.isPrefixOf (a :: rest) then some i else subIdx pat rest (i + 1)

/-- The backtick character, referenced by code point to keep it out of
the source text. -/
def bq : Char := Char.ofNat 96

/-- The GetSubstitution processing JS applies to a replacement string: a
dollar followed by dollar yields a literal dollar, dollar-ampersand the
matched substring, dollar-backtick the part of the subject before the
match, dollar-quote the part after it; with a string pattern there are
no capture groups, so every other dollar stays literal and scanning
resumes at the character after it. -/
def substRepl (matched before after : List Char) : List Char → List Char
  | [] => []
  | [c] => [c]
  | c1 :: c2 :: rest =>
    if c1 = '$' ∧ c2 = '$' then '$' :: substRepl matched before after rest
    else if c1 = '$' ∧ c2 = '&' then matched ++ substRepl matched before after rest
    else if c1 = '$' ∧ c2 = bq then before ++ substRepl matched before after rest
    else if c1 = '$' ∧ c2 = sq then after ++ substRepl matched before after rest
    else c1 :: substRepl matched before after (c2 :: rest)

/-- JS s.replace(pat, sub) with a string pattern: the first occurrence of
pat is replaced by sub processed through GetSubstitution, where the
matched text is pat itself and before/after are the parts of s around
the match. -/
def replaceFirst (s pat sub : String) : String :=
  match subIdx pat.data s.data 0 with
  | none => s
  | some i =>
    String.mk (s.data.take i
      ++ substRepl pat.data (s.data.take i) (s.data.drop (i + pat.data.length)) sub.data
      ++ s.data.drop (i + pat.data.length))

/-- JS String(array) style coercion for the rare non-string directive argument. -/
def joinWith (sep : String) : List String → String
  | [] => ""
  | [x] => x
  | x :: rest => x ++ sep ++ joinWith sep rest

/-- JS parseInt on the decimal numerals used by config return codes
(sign and radix prefixes are not exercised by the source configs). -/
def jsParseInt (s : String) : Option Nat :=
  let t := s.data.dropWhile (fun c => c = ' ')
  let ds := t.takeWhile (fun c => c.isDigit)
  if ds = [] then none else some (ds.foldl (fun n c => n * 10 + (c.toNat - 48)) 0)

/-- Strip one leading and one trailing quote character, the effect of the
source regex replace of leading-or-trailing quote with the empty string. -/
def stripQuotesL (l : List Char) : List Char :=
  let l1 := match l with
    | [] => []
    | c :: rest => if isQuote c then rest else l
  match l1.getLast? with
  | some c => if isQuote c then l1.dropLast else l1
  | none => l1

def stripQuotes (s : String) : String := String.mk (stripQuotesL s.data)

/-- Percent-decoding as the source does it: each three-character sequence
percent, hexdigit, hexdigit is matched by the regex and decoded
individually by decodeURIComponent, which succeeds exactly for the bytes
below 0x80 and throws URIError for every byte at 0x80 and above (a lone
byte is never a complete multi-byte UTF-8 sequence); the thrown case is
the none result here. A percent not followed by two hex digits is not
matched by the regex and passes through untouched. -/
def hexVal (c : Char) : Nat :=
  if c.isDigit then c.toNat - 48
  else if 'a' ≤ c ∧ c ≤ 'f' then c.toNat - 87
  else c.toNat - 55

def isHexDig (c : Char) : Bool :=
  (('0' ≤ c ∧ c ≤ '9') ∨ ('A' ≤ c ∧ c ≤ 'F') ∨ ('a' ≤ c ∧ c ≤ 'f') : Prop)

def pctDecodeL : List Char → Option (List Char)
  | [] => some []
  | '%' :: a :: b :: rest =>
    if isHexDig a ∧ isHexDig b then
      let n := hexVal a * 16 + hexVal b
      if n < 128 then (pctDecodeL rest).map (fun l => Char.ofNat n :: l)
      else none
    else (pctDecodeL (a :: b :: rest)).map (fun l => '%' :: l)
  | c :: rest => (pctDecodeL rest).map (fun l => c :: l)

def pctDecode (s : String) : Option String := (pctDecodeL s.data).map String.mk

/-- The source regex replace of runs of two or more slashes by one slash,
equivalently: collapse every run of slashes to a single slash. -/
def collapseL : List Char → List Char
  | [] => []
  | [c] => [c]
  | a :: b :: rest =>
    if a = '/' ∧ b = '/' then collapseL (b :: rest) else a :: collapseL (b :: rest)

def collapseSlashes (s : String) : String := String.mk (collapseL s.data)

/-! The fetch Headers object: an ordered list of name-value pairs with
byte-case-insensitive names (ASCII here). set follows the fetch spec:
replace the value of the first matching entry and remove the others,
or append when absent. append adds at the end. get combines matching
values with a comma-space separator. -/

abbrev HdrList := List (String × String)

def hMatches (m n : String) : Bool := jsToLower m = jsToLower n

def hRemove (hs : HdrList) (n : String) : HdrList :=
  hs.filter (fun e => !(hMatches e.1 n))

def hSet : HdrList → String → String → HdrList
  | [], n, v => [(n, v)]
  | (m, w) :: rest, n, v =>
    if hMatches m n then (m, v) :: hRemove rest n else (m, w) :: hSet rest n v

def hAppend (hs : HdrList) (n v : String) : HdrList := hs ++ [(n, v)]

def hValues (hs : HdrList) (n : String) : List String :=
  (hs.filter (fun e => hMatches e.1 n)).map (·.2)

def hGet (hs : HdrList) (n : String) : Option String :=
  match hValues hs n with
  | [] => none
  | l => some (joinWith ", " l)

def hHas (hs : HdrList) (n : String) : Bool := !(hValues hs n).isEmpty

/-! Responses. A streamed file body is recorded by its path; Response(null)
has an empty body. Content types and status texts are not modelled. -/

inductive Body where
  | empty
  | file (path : String)
  | text (s : String)
deriving DecidableEq

structure Resp where
  status : Nat
  body : Body
  headers : HdrList
deriving DecidableEq

/-- A promise rejection from the upstream fetch call (Bun error object:
code, message and the unreachable path). -/
structure JsErr where
  code : Option String
  message : String
  path : String
deriving DecidableEq

/-! The nested configuration values attached to a location: a directive
argument string, an add_header array, or a nested directive group such as
the conditional OPTIONS block. JS objects are insertion-ordered maps,
embedded as association lists (the location keys used here are path
strings, which JS does not reorder). -/

inductive AVal where
  | str (s : String)
  | strs (l : List String)
  | grp (g : List (String × AVal))

/-- JS property read on an object embedded as an association list. -/
def objGet : List (String × AVal) → String → Option AVal
  | [], _ => none
  | (k, v) :: rest, n => if k = n then some v else objGet rest n

/-- JS property write: an existing key keeps its position and gets the new
value, a new key is appended (Object.assign semantics per key). -/
def objSet : List (String × AVal) → String → AVal → List (String × AVal)
  | [], n, v => [(n, v)]
  | (k, w) :: rest, n, v =>
    if k = n then (k, v) :: rest else (k, w) :: objSet rest n v

/-- utils.ts toArray on an add_header value: arrays pass through, a truthy
scalar becomes a singleton, a falsy value (absent key or empty string)
becomes the empty list. An object-valued add_header cannot come out of the
nginx parser and is not modelled. -/
def addHeaderList : Option AVal → List String
  | some (.str s) => if s = "" then [] else [s]
  | some (.strs l) => l
  | some (.grp _) => []
  | none => []

/-- The for-of iteration setResponseHeaders performs over a raw add_header
value: an array iterates its elements, a string iterates its characters
as one-character strings, an absent value iterates nothing. -/
def iterableHeaders : Option AVal → List String
  | some (.str s) => s.data.map (fun c => String.mk [c])
  | some (.strs l) => l
  | some (.grp _) => []
  | none => []

/-- JS String coercion of a directive argument, for the handler parameter. -/
def argStr : AVal → String
  | .str s => s
  | .strs l => joinWith "," l
  | .grp _ => "[object Object]"

/-- One location_actions entry as built by setupLocationActions: the
accumulated add_header array (always created first), the remaining
directive entries in object insertion order, and the conditional OPTIONS
group stored under its literal key. -/
structure LocActions where
  add_header : List String
  dirs : List (String × AVal)
  optGroup : Option (List (String × AVal))

/-- The literal key of the conditional OPTIONS directive group. -/
def optionsKey : String :=
  "if ($request_method = " ++ String.mk [sq] ++ "OPTIONS" ++ String.mk [sq] ++ ")"

/-! setupLocationActions (src/server.ts:445-470). A raw server block is a
list of key-value entries; a location key carries one directive group or
an array of groups (the parser produces an array when the block is
declared twice); other server keys are scalars that the builder skips. -/

inductive SVal where
  | scalar (s : String)
  | groups (gs : List (List (String × AVal)))

/-- One Object.assign step of mergeGroup: the conditional OPTIONS key is
stored as the special group (the parser always produces an object there),
every other key is assigned with keep-position-on-overwrite semantics. -/
def assignPair (la : LocActions) (kv : String × AVal) : LocActions :=
  if kv.1 = optionsKey then
    match kv.2 with
    | .grp g => { la with optGroup := some g }
    | v => { la with dirs := objSet la.dirs kv.1 v }
  else { la with dirs := objSet la.dirs kv.1 kv.2 }

/-- One directive group folded into the location entry: add_header values
are popped into the accumulator (removePropToArray), the remaining keys
are assigned in declaration order. -/
def mergeGroup (la : LocActions) (g : List (String × AVal)) : LocActions :=
  let rest := g.filter (fun kv => kv.1 ≠ "add_header")
  rest.foldl assignPair
    { la with add_header := la.add_header ++ addHeaderList (objGet g "add_header") }

def mergeGroups (gs : List (List (String × AVal))) : LocActions :=
  gs.foldl mergeGroup { add_header := [], dirs := [], optGroup := none }

/-- Store a location entry under its path key: an existing key keeps its
position and gets the new value (JS object assignment). -/
def tblSet : List (String × LocActions) → String → LocActions → List (String × LocActions)
  | [], n, v => [(n, v)]
  | (k, w) :: rest, n, v =>
    if k = n then (k, v) :: rest else (k, w) :: tblSet rest n v

/-- One server-block entry processed by the builder loop: a location key
is merged and stored under the path key (the directive key after the
nine-character skip of the literal location-space token), every other key
is skipped. A bare string under a location key cannot come out of the
nginx parser and is not modelled. -/
def collectStep (acc : List (String × LocActions)) (kv : String × SVal) : List (String × LocActions) :=
  if jsStartsWith kv.1 "location " then
    match kv.2 with
    | .groups gs => tblSet acc (jsSlice kv.1 9) (mergeGroups gs)
    | .scalar _ => acc
  else acc

/-- Collect every location block of the server object, in declaration order. -/
def collectLocations (cfg : List (String × SVal)) : List (String × LocActions) :=
  cfg.foldl collectStep []

/-- Insert for the stable descending-length sort: the element being
inserted is declared earlier than everything already sorted, so it goes
before every entry of equal key length. -/
def insertLoc (x : String × LocActions) : List (String × LocActions) → List (String × LocActions)
  | [] => [x]
  | y :: ys => if jsLen x.1 < jsLen y.1 then y :: insertLoc x ys else x :: y :: ys

/-- The source sorts the collected entries with the comparator
subtracting key lengths, descending; Array.prototype.sort is stable, and
a stable sort by a total preorder has a unique result, realized here by
stable insertion. -/
def sortLocs : List (String × LocActions) → List (String × LocActions)
  | [] => []
  | x :: xs => insertLoc x (sortLocs xs)

def setupLocationActions (cfg : List (String × SVal)) : List (String × LocActions) :=
  sortLocs (collectLocations cfg)

/-! The request pipeline (src/server.ts:108-286 and 386-443). -/

/-- An inbound request: method, decoded-from-URL split into pathname and
search (the query string including its question mark, or empty), and the
request headers. -/
structure Req where
  method : String
  pathname : String
  search : String
  headers : HdrList

def reqHeader (req : Req) (n : String) : Option String := hGet req.headers n

/-- The external collaborators and global flags: the CORS flag of the
global configuration, the development-environment flag, the global
add_header list, the filesystem existence check, whether the transport
upgrade hook accepts the request, and the upstream fetch keyed by the
final target URL. An upstream rejection is the error branch; the source
never catches it in the request path. -/
structure Env where
  cors : Bool
  dev : Bool
  globalAddHeader : List String
  fsExists : String → Bool
  upgradeOk : Bool
  upstream : String → Except JsErr Resp

/-- The per-server configuration fields the pipeline reads. -/
structure ServerCfg where
  root : String
  index : List String
  add_header : List String
  location_actions : List (String × LocActions)

/-- The URIError decodeURIComponent throws on a percent escape at 0x80
or above; it carries no code and no path property. -/
def uriError : JsErr := { code := none, message := "URI malformed", path := "" }

/-- The file path a try_files candidate resolves to: root plus the entry
with the first $uri occurrence replaced by the request pathname and
percent sequences decoded (src/server.ts:114-116); none when the
decoding throws URIError. -/
def tryFilesPath (cfg : ServerCfg) (req : Req) (entry : String) : Option String :=
  (pctDecode (replaceFirst entry "$uri" req.pathname)).map (fun d => cfg.root ++ d)

/-- The inner index loop of try_files: the first configured index file
that exists under the directory is streamed with status 200. -/
def tryIndexes (env : Env) (dir : String) : List String → Option Resp
  | [] => none
  | index :: rest =>
    if env.fsExists (dir ++ index) then some ⟨200, .file (dir ++ index), []⟩
    else tryIndexes env dir rest

/-- The candidate loop of try_files (src/server.ts:110-131). A URIError
thrown while building the file path rejects the handler promise; the
source never catches it, so it propagates as the error branch. -/
def tryEntries (env : Env) (cfg : ServerCfg) (req : Req) :
    List String → Except JsErr (Option Resp)
  | [] => .ok none
  | entry :: rest =>
    if entry = "=404" then .ok (some ⟨404, .empty, []⟩)
    else
      match tryFilesPath cfg req entry with
      | none => .error uriError
      | some file_path =>
        if jsEndsWith entry "/" then
          match tryIndexes env file_path cfg.index with
          | some r => .ok (some r)
          | none => tryEntries env cfg req rest
        else if env.fsExists file_path then .ok (some ⟨200, .file file_path, []⟩)
        else tryEntries env cfg req rest

/-- The try_files handler: candidates are the space-split argument. -/
def try_files (env : Env) (cfg : ServerCfg) (req : Req) (argument : String) :
    Except JsErr (Option Resp) :=
  tryEntries env cfg req (jsSplitSpace argument)

/-! proxy_pass (src/server.ts:134-193). Only the scheme-host-path shape
of URLs is modelled (no userinfo, ports stay inside the host field); the
constructor-level normalization of dot segments and percent escapes that
new URL would additionally perform is not exercised by the claims. -/

structure UrlParts where
  scheme : String
  host : String
  path : String
deriving DecidableEq

def parseUrl (s : String) : Option UrlParts :=
  match subIdx "://".data s.data 0 with
  | none => none
  | some i =>
    if i = 0 then none
    else
      let rest := s.data.drop (i + 3)
      match firstIdx '/' rest with
      | none => if rest = [] then none else some ⟨String.mk (s.data.take i), String.mk rest, "/"⟩
      | some j =>
        if j = 0 then none
        else some ⟨String.mk (s.data.take i), String.mk (rest.take j), String.mk (rest.drop j)⟩

/-- JS falsiness of the matched path pattern: absent or the empty string. -/
def jsFalsy : Option String → Bool
  | none => true
  | some s => s = ""

/-- The prefix-stripping condition of proxy_pass (src/server.ts:142). -/
def shouldStrip (argument : String) (pfx : Option String) : Bool :=
  jsEndsWith argument "/" && (jsFalsy pfx || jsEndsWith (pfx.getD "") "/")

/-- The forwarded target URL proxy_pass computes (src/server.ts:140-149):
strip the matched pattern from the pathname when the condition holds,
concatenate onto the base path, collapse slash runs, append the query. -/
def proxyUrl (argument : String) (pfx : Option String) (pathname search : String) : Option String :=
  match parseUrl argument with
  | none => none
  | some base =>
    let pathToAppend :=
      if shouldStrip argument pfx then jsSlice pathname (jsLen (pfx.getD "")) else pathname
    some (base.scheme ++ "://" ++ base.host
          ++ collapseSlashes (base.path ++ pathToAppend) ++ search)

/-- The response-header adjustment after a proxied fetch resolves: a
content-encoding of gzip or zstd is dropped (src/server.ts:187-189). -/
def stripContentEncoding (r : Resp) : Resp :=
  match hGet r.headers "content-encoding" with
  | some enc =>
    if enc = "gzip" ∨ enc = "zstd" then { r with headers := hRemove r.headers "content-encoding" }
    else r
  | none => r

/-- The proxy_pass handler. A URL-construction failure is caught and
returned as a 500 (the interpolated runtime message is elided); an
accepted upgrade returns the synthetic switching-protocols marker; the
outbound request rewriting (forwarding headers, proxy_set_header, body
buffering, timeout, manual redirects) alters only the forwarded request
and is folded into the upstream collaborator. -/
def proxy_pass (env : Env) (req : Req) (pfx : Option String) (argument : String) :
    Except JsErr Resp :=
  match proxyUrl argument pfx req.pathname req.search with
  | none => .ok ⟨500, .text "Error constructing proxy URL", []⟩
  | some u =>
    if env.upgradeOk then .ok ⟨101, .empty, []⟩
    else
      match env.upstream u with
      | .error e => .error e
      | .ok r => .ok (stripContentEncoding r)

/-! The header cascade (src/server.ts:248-286). -/

def multi_value_headers : List String :=
  ["cache-control", "accept-ranges", "content-encoding", "www-authenticate",
   "warning", "allow", "vary", "link"]

/-- parseHeader (src/server.ts:269-274): split at the first space (JS
indexOf yields minus one when absent, making the name the string without
its last character and the value the whole string), lower-case the name,
strip one surrounding quote from each part. -/
def parseHeader (header : String) : String × String :=
  match firstIdx ' ' header.data with
  | some i =>
    (stripQuotes (jsToLower (String.mk (header.data.take i))),
     stripQuotes (String.mk (header.data.drop (i + 1))))
  | none =>
    (stripQuotes (jsToLower (String.mk header.data.dropLast)), stripQuotes header)

/-- The pair of the response headers being built and the altered-headers
diagnostic list the Options record accumulates. -/
structure HdrSt where
  hs : HdrList
  altered : HdrList
deriving DecidableEq

/-- One add_header entry applied: multi-value names append, every other
name overwrites; the entry is also logged to the diagnostic list. -/
def applyHeader (st : HdrSt) (header : String) : HdrSt :=
  let nv := parseHeader header
  { hs := if multi_value_headers.contains nv.1 then hAppend st.hs nv.1 nv.2
          else hSet st.hs nv.1 nv.2,
    altered := st.altered ++ [(nv.1, nv.2)] }

def setResponseHeaders (st : HdrSt) (headers : List String) : HdrSt :=
  headers.foldl applyHeader st

/-- withHeaders (src/server.ts:248-256): reset the diagnostic list, then
apply the global, server and location-scope add_header lists in order. -/
def withHeaders (env : Env) (cfg : ServerCfg) (locAdd : List String) (r : Resp) :
    Resp × HdrList :=
  let st := setResponseHeaders ⟨r.headers, []⟩ env.globalAddHeader
  let st := setResponseHeaders st cfg.add_header
  let st := setResponseHeaders st locAdd
  ({ r with headers := st.hs }, st.altered)

/-! runActions (src/server.ts:199-246). -/

/-- The CORS synthesis (src/server.ts:201-215): with the CORS flag on and
a truthy Origin header, an allow-origin entry is pushed onto the add_header
array of the location object itself, followed by allow-headers and
allow-methods entries when no entry with those names is present yet. -/
def corsAugment (env : Env) (req : Req) (actions : LocActions) : LocActions :=
  if env.cors then
    match reqHeader req "origin" with
    | none => actions
    | some o =>
      if o = "" then actions
      else
        let l1 := actions.add_header ++ ["access-control-allow-origin " ++ o]
        let l2 :=
          if l1.any (fun n => jsStartsWith n "access-control-allow-headers") then l1
          else l1 ++ ["access-control-allow-headers "
                        ++ ((reqHeader req "access-control-request-headers").getD "")]
        let l3 :=
          if l2.any (fun n => jsStartsWith n "access-control-allow-methods") then l2
          else l2 ++ ["access-control-allow-methods GET, POST, OPTIONS"]
        { actions with add_header := l3 }
  else actions

/-- The handler-name table of the source (src/server.ts:108-197). -/
def location_handlers : List String :=
  ["try_files", "proxy_pass", "proxy_http_version", "proxy_cache_bypass"]

/-- Directive dispatch: the two informational directives are present in
the table with empty bodies and yield undefined; an unknown name makes
the optional call evaluate to undefined as well. -/
def runHandler (env : Env) (cfg : ServerCfg) (req : Req) (pfx : Option String)
    (name : String) (arg : AVal) : Except JsErr (Option Resp) :=
  if name = "try_files" then try_files env cfg req (argStr arg)
  else if name = "proxy_pass" then (proxy_pass env req pfx (argStr arg)).map some
  else if name = "proxy_http_version" then .ok none
  else if name = "proxy_cache_bypass" then .ok none
  else .ok none

/-- The directive loop (src/server.ts:240-245): entries in declaration
order; the first response with status at least 200 is returned through
withHeaders; undefined results and lower statuses continue the loop; a
rejected handler promise propagates. -/
def actionsLoop (env : Env) (cfg : ServerCfg) (req : Req) (pfx : Option String)
    (actions : LocActions) : List (String × AVal) → Except JsErr (Option Resp)
  | [] => .ok none
  | (name, arg) :: rest =>
    match runHandler env cfg req pfx name arg with
    | .error e => .error e
    | .ok none => actionsLoop env cfg req pfx actions rest
    | .ok (some r) =>
      if 200 ≤ r.status then .ok (some (withHeaders env cfg actions.add_header r).1)
      else actionsLoop env cfg req pfx actions rest

/-- Remove the first occurrence of a quote character followed by the
space-always token, the preflight regex replace (src/server.ts:229-232). -/
def qaIdx : List Char → Nat → Option Nat
  | [], _ => none
  | c :: rest, i =>
    if isQuote c ∧ " always".data.isPrefixOf rest then some i else qaIdx rest (i + 1)

def delQuoteAlways (s : String) : String :=
  match qaIdx s.data 0 with
  | none => s
  | some i => String.mk (s.data.take i ++ s.data.drop (i + 8))

/-- The preflight branch with a conditional OPTIONS group
(src/server.ts:218-235): the return code of the group (or 204), headers of
the group applied, then the three access-control headers post-processed. -/
def preflightWithGroup (env : Env) (cfg : ServerCfg) (g : List (String × AVal)) : Resp :=
  let ret := match objGet g "return" with
    | some v => jsParseInt (argStr v)
    | none => none
  let status := match ret with
    | some n => if n = 0 then 204 else n
    | none => 204
  let r1 := (withHeaders env cfg (iterableHeaders (objGet g "add_header")) ⟨status, .empty, []⟩).1
  let r2 := match hGet r1.headers "access-control-allow-origin" with
    | some ov =>
      if ov.data.head? = some '*' then
        { r1 with headers := hSet r1.headers "access-control-allow-origin" "*" }
      else r1
    | none => r1
  let r3 := match hGet r2.headers "access-control-allow-methods" with
    | some mv =>
      { r2 with headers := hSet r2.headers "access-control-allow-methods" (delQuoteAlways mv) }
    | none => r2
  match hGet r3.headers "access-control-allow-headers" with
  | some hv =>
    { r3 with headers := hSet r3.headers "access-control-allow-headers" (delQuoteAlways hv) }
  | none => r3

/-- The value of a runActions call: its returned response (or propagated
rejection) and the state of the location object it mutated in place. -/
structure RunResult where
  response : Except JsErr (Option Resp)
  actions : LocActions

/-- runActions (src/server.ts:199-246): CORS synthesis mutates the
location object first; a preflight request (method OPTIONS with an
access-control-request-method header) short-circuits, with the
conditional OPTIONS group when present or a bare 200 otherwise; any other
request runs the directive loop. -/
def runActions (env : Env) (cfg : ServerCfg) (req : Req) (pfx : Option String)
    (actions0 : LocActions) : RunResult :=
  let actions := corsAugment env req actions0
  if req.method == "OPTIONS" && hHas req.headers "access-control-request-method" then
    match actions.optGroup with
    | some g => { response := .ok (some (preflightWithGroup env cfg g)), actions }
    | none =>
      { response := .ok (some ((withHeaders env cfg actions.add_header ⟨200, .empty, []⟩).1)),
        actions }
  else
    { response := actionsLoop env cfg req pfx actions actions.dirs, actions }

/-! The per-request dispatcher (src/server.ts:386-420). -/

/-- The outcome of one fetch call: the recorded matched path pattern, the
returned response or propagated rejection, the stored location table
after the call (the mutation of the matched entry persists), and the
console warnings emitted on the request path (the source emits none; the
no-handler warning exists only in earlier revisions of the file). -/
structure FetchOutcome where
  matched : Option String
  response : Except JsErr (Option Resp)
  location_actions : List (String × LocActions)
  warnings : List String

/-- The dispatch loop (src/server.ts:411-417): entries of the stored
table in order; the first whose key is a string-prefix of the request
pathname is run. -/
def fetchLoop (env : Env) (cfg : ServerCfg) (req : Req) :
    List (String × LocActions) → Option (String × RunResult)
  | [] => none
  | (pfx, actions) :: rest =>
    if jsStartsWith req.pathname pfx then some (pfx, runActions env cfg req (some pfx) actions)
    else fetchLoop env cfg req rest

/-- The fetch handler: a match records the pattern and returns the
runActions value with the mutated entry stored back; no match falls off
the end of the handler with no response and no warning. -/
def fetchDispatch (env : Env) (cfg : ServerCfg) (req : Req) : FetchOutcome :=
  match fetchLoop env cfg req cfg.location_actions with
  | some (pfx, rr) =>
    { matched := some pfx
      response := rr.response
      location_actions := tblSet cfg.location_actions pfx rr.actions
      warnings := [] }
  | none =>
    { matched := none
      response := .ok none
      location_actions := cfg.location_actions
      warnings := [] }

/-- errorResponse (src/server.ts:472-479): defined in the source but
referenced nowhere; it would label a connection-refused upstream failure,
append the unreachable path in a development environment, default the
code to ServerError, and answer 500 with the request correlation id. -/
def errorResponse (env : Env) (e : JsErr) (req_id : String) : Resp :=
  let e1 :=
    if e.code = some "ConnectionRefused" then
      { e with message := "Unable to connect to upstream server"
                            ++ (if env.dev then " " ++ e.path else "") }
    else if e.code = none then { e with code := some "ServerError" }
    else e
  ⟨500, .text (e1.code.getD "undefined" ++ ": " ++ e1.message ++ "\nRequest ID: " ++ req_id), []⟩

/-- A directive-loop step that does not terminate the loop: the handler
yielded undefined, or a response whose status is below 200. -/
def producesNoResponse (x : Except JsErr (Option Resp)) : Prop :=
  x = .ok none ∨ ∃ r, x = .ok (some r) ∧ r.status < 200

/-! Concrete fixtures used by witnesses and counterexamples. -/

def cfgOf (tbl : List (String × LocActions)) : ServerCfg :=
  { root := "/www", index := ["index.html"], add_header := [], location_actions := tbl }

def reqGet (path : String) : Req :=
  { method := "GET", pathname := path, search := "", headers := [] }

def wEnv : Env :=
  { cors := false, dev := false, globalAddHeader := [],
    fsExists := fun p => p == "/www/a.html", upgradeOk := false,
    upstream := fun _ => .ok ⟨200, .empty, []⟩ }

def emptyLoc : LocActions := ⟨[], [], none⟩

def loc1 : LocActions := ⟨[], [("proxy_http_version", .str "1.1")], none⟩

def srvUp : List (String × SVal) :=
  [("location /upstream", .groups [[("proxy_pass", .str "http://one/")]]),
   ("location /upstream-123", .groups [[("proxy_pass", .str "http://two/")]])]

def srvUpRev : List (String × SVal) :=
  [("location /upstream-123", .groups [[("proxy_pass", .str "http://two/")]]),
   ("location /upstream", .groups [[("proxy_pass", .str "http://one/")]])]

def cfg1w : ServerCfg := cfgOf [("/zzz", emptyLoc), ("/upstream-123", loc1)]

def env7 : Env :=
  { cors := false, dev := false,
    globalAddHeader := ["access-control-allow-origin * always",
                        "access-control-allow-headers $http_access_control_request_headers"],
    fsExists := fun _ => false, upgradeOk := false,
    upstream := fun _ => .ok ⟨200, .empty, []⟩ }

def errConn : JsErr :=
  { code := some "ConnectionRefused", message := "connect ECONNREFUSED",
    path := "http://127.0.0.1:9/api/x" }

def env8 : Env :=
  { cors := false, dev := true, globalAddHeader := [],
    fsExists := fun _ => false, upgradeOk := false,
    upstream := fun _ => .error errConn }

def cfg8 : ServerCfg :=
  cfgOf (setupLocationActions
    [("location /api", .groups [[("proxy_pass", .str "http://127.0.0.1:9/")]])])

def cfg9 : ServerCfg := cfgOf [("/api", emptyLoc)]

def env10 : Env :=
  { cors := true, dev := false, globalAddHeader := [],
    fsExists := fun _ => false, upgradeOk := false,
    upstream := fun _ => .ok ⟨200, .empty, []⟩ }

def loc10 : LocActions := ⟨["x-frame-options DENY"], [], none⟩

def cfg10 : ServerCfg := cfgOf [("/app", loc10)]

def req10a : Req :=
  { method := "GET", pathname := "/app/x", search := "",
    headers := [("origin", "http://a.example")] }

def req10b : Req :=
  { method := "GET", pathname := "/app/y", search := "",
    headers := [("origin", "http://b.example")] }

/-! Helper lemmas. -/

theorem mem_insertLoc {a x : String × LocActions} {l : List (String × LocActions)} :
    a ∈ insertLoc x l ↔ a = x ∨ a ∈ l := by
  induction l with
  | nil => simp [insertLoc]
  | cons y ys ih =>
    by_cases h : jsLen x.1 < jsLen y.1
    · simp only [insertLoc, if_pos h, List.mem_cons, ih]
      tauto
    · simp only [insertLoc, if_neg h, List.mem_cons]

theorem insertLoc_pairwise {x : String × LocActions} {l : List (String × LocActions)}
    (h : l.Pairwise (fun a b => jsLen b.1 ≤ jsLen a.1)) :
    (insertLoc x l).Pairwise (fun a b => jsLen b.1 ≤ jsLen a.1) := by
  induction l with
  | nil => simp [insertLoc]
  | cons y ys ih =>
    rcases List.pairwise_cons.mp h with ⟨hy, hys⟩
    by_cases hlt : jsLen x.1 < jsLen y.1
    · rw [insertLoc, if_pos hlt]
      refine List.pairwise_cons.mpr ⟨?_, ih hys⟩
      intro z hz
      rcases mem_insertLoc.mp hz with rfl | hz
      · omega
      · exact hy z hz
    · rw [insertLoc, if_neg hlt]
      refine List.pairwise_cons.mpr ⟨?_, h⟩
      intro z hz
      rcases List.mem_cons.mp hz with rfl | hz
      · omega
      · have := hy z hz
        omega

theorem insertLoc_filter (n : Nat) (x : String × LocActions) (l : List (String × LocActions)) :
    (insertLoc x l).filter (fun e => jsLen e.1 == n)
      = if jsLen x.1 == n then x :: l.filter (fun e => jsLen e.1 == n)
        else l.filter (fun e => jsLen e.1 == n) := by
  induction l with
  | nil => by_cases hx : jsLen x.1 = n <;> simp [insertLoc, List.filter_cons, hx]
  | cons y ys ih =>
    by_cases hlt : jsLen x.1 < jsLen y.1
    · rw [insertLoc, if_pos hlt]
      by_cases hx : jsLen x.1 = n
      · have hy : ¬(jsLen y.1 = n) := by omega
        simp [List.filter_cons, hx, hy, ih]
      · simp [List.filter_cons, hx, ih]
    · rw [insertLoc, if_neg hlt]
      by_cases hx : jsLen x.1 = n
      · simp [List.filter_cons, hx]
      · simp [List.filter_cons, hx]

theorem insertLoc_perm (x : String × LocActions) (l : List (String × LocActions)) :
    List.Perm (insertLoc x l) (x :: l) := by
  induction l with
  | nil => simp [insertLoc]
  | cons y ys ih =>
    by_cases hlt : jsLen x.1 < jsLen y.1
    · rw [insertLoc, if_pos hlt]
      exact (ih.cons y).trans (List.Perm.swap x y ys)
    · rw [insertLoc, if_neg hlt]

theorem sortLocs_pairwise (l : List (String × LocActions)) :
    (sortLocs l).Pairwise (fun a b => jsLen b.1 ≤ jsLen a.1) := by
  induction l with
  | nil => simp [sortLocs]
  | cons x xs ih => exact insertLoc_pairwise ih

theorem sortLocs_filter (n : Nat) (l : List (String × LocActions)) :
    (sortLocs l).filter (fun e => jsLen e.1 == n) = l.filter (fun e => jsLen e.1 == n) := by
  induction l with
  | nil => rfl
  | cons x xs ih =>
    rw [sortLocs, insertLoc_filter, ih]
    by_cases hx : jsLen x.1 = n
    · simp [List.filter_cons, hx]
    · simp [List.filter_cons, hx]

theorem sortLocs_perm (l : List (String × LocActions)) : List.Perm (sortLocs l) l := by
  induction l with
  | nil => rfl
  | cons x xs ih => exact (insertLoc_perm x (sortLocs xs)).trans (ih.cons x)

/-- C2: setupLocationActions orders the location table by non-increasing
key length; entries of equal key length keep their relative collection
order (the per-length sublists are untouched), and the sorted table is a
permutation of the collected one. -/
theorem setupLocationActions_sorted_stable (cfg : List (String × SVal)) :
    (setupLocationActions cfg).Pairwise (fun a b => jsLen b.1 ≤ jsLen a.1)
    ∧ (∀ n : Nat, (setupLocationActions cfg).filter (fun e => jsLen e.1 == n)
        = (collectLocations cfg).filter (fun e => jsLen e.1 == n))
    ∧ List.Perm (setupLocationActions cfg) (collectLocations cfg) := by
  refine ⟨sortLocs_pairwise _, fun n => sortLocs_filter n _, sortLocs_perm _⟩

theorem fetchLoop_append {env : Env} {cfg : ServerCfg} {req : Req}
    {pre l : List (String × LocActions)}
    (h : ∀ e ∈ pre, jsStartsWith req.pathname e.1 = false) :
    fetchLoop env cfg req (pre ++ l) = fetchLoop env cfg req l := by
  induction pre with
  | nil => rfl
  | cons e es ih =>
    have he := h e (List.mem_cons_self e es)
    rw [List.cons_append, fetchLoop, he]
    · exact ih fun e' he' => h e' (List.mem_cons_of_mem e he')

theorem fetchLoop_cons_match {env : Env} {cfg : ServerCfg} {req : Req}
    {p : String} {a : LocActions} {rest : List (String × LocActions)}
    (h : jsStartsWith req.pathname p = true) :
    fetchLoop env cfg req ((p, a) :: rest) = some (p, runActions env cfg req (some p) a) := by
  rw [fetchLoop, h]
  exact rfl

theorem fetchLoop_none {env : Env} {cfg : ServerCfg} {req : Req}
    {l : List (String × LocActions)}
    (h : ∀ e ∈ l, jsStartsWith req.pathname e.1 = false) :
    fetchLoop env cfg req l = none := by
  induction l with
  | nil => rfl
  | cons e es ih =>
    have he := h e (List.mem_cons_self e es)
    rw [fetchLoop, he]
    exact ih fun e' he' => h e' (List.mem_cons_of_mem e he')

theorem tblSet_append {p : String} {v : LocActions} {pre : List (String × LocActions)}
    {a : LocActions} {rest : List (String × LocActions)}
    (h : ∀ e ∈ pre, e.1 ≠ p) :
    tblSet (pre ++ (p, a) :: rest) p v = pre ++ (p, v) :: rest := by
  induction pre with
  | nil => simp [tblSet]
  | cons e es ih =>
    have he := h e (List.mem_cons_self e es)
    rw [List.cons_append, List.cons_append]
    cases e with
    | mk k w =>
      rw [tblSet, if_neg (by simpa using he)]
      rw [ih fun e' he' => h e' (List.mem_cons_of_mem _ he')]

/-- C1: the dispatcher scans the stored location table in order and runs
the first entry whose key is a literal string-prefix of the request
pathname, recording that key as the matched pattern and returning the
runActions value of that entry; in particular, on the table built by
setupLocationActions from either declaration order, a request to
/upstream-123-qwe matches /upstream-123 rather than the shorter
/upstream, although the tail does not align to a path segment. -/
theorem dispatch_first_string_prefix_match :
    (∀ (env : Env) (cfg : ServerCfg) (req : Req) pre p a rest,
      cfg.location_actions = pre ++ (p, a) :: rest →
      (∀ e ∈ pre, jsStartsWith req.pathname e.1 = false) →
      jsStartsWith req.pathname p = true →
      (fetchDispatch env cfg req).matched = some p
      ∧ (fetchDispatch env cfg req).response = (runActions env cfg req (some p) a).response)
    ∧ (∀ env : Env,
      (fetchDispatch env (cfgOf (setupLocationActions srvUp))
        (reqGet "/upstream-123-qwe")).matched = some "/upstream-123"
      ∧ (fetchDispatch env (cfgOf (setupLocationActions srvUpRev))
        (reqGet "/upstream-123-qwe")).matched = some "/upstream-123") := by
  constructor
  · intro env cfg req pre p a rest htbl hpre hp
    rw [fetchDispatch, htbl, fetchLoop_append hpre, fetchLoop_cons_match hp]
    exact ⟨rfl, rfl⟩
  · intro env
    exact ⟨rfl, rfl⟩

theorem dispatch_first_string_prefix_match_witness :
    (fetchDispatch wEnv cfg1w (reqGet "/upstream-123-qwe")).matched = some "/upstream-123"
    ∧ (fetchDispatch wEnv cfg1w (reqGet "/upstream-123-qwe")).response
        = (runActions wEnv cfg1w (reqGet "/upstream-123-qwe") (some "/upstream-123") loc1).response :=
  dispatch_first_string_prefix_match.1 wEnv cfg1w (reqGet "/upstream-123-qwe")
    [("/zzz", emptyLoc)] "/upstream-123" loc1 [] rfl (by decide) (by decide)

/-- C9 counterexample: on a request matching no location key the fetch
handler produces no response and, contrary to the claim, emits no logged
warning at all: the warning stream of the outcome is empty. -/
theorem no_match_silent_counterexample :
    (fetchDispatch wEnv cfg9 (reqGet "/nope")).warnings = []
    ∧ (fetchDispatch wEnv cfg9 (reqGet "/nope")).response = .ok none
    ∧ (fetchDispatch wEnv cfg9 (reqGet "/nope")).matched = none :=
  ⟨rfl, rfl, rfl⟩

/-- C9 (amended): for every request whose pathname is a string-prefix of
no location table key, the dispatcher produces no HTTP response, leaves
the table untouched and emits no warning: the miss is silent. -/
theorem no_match_yields_no_response_no_warning
    (env : Env) (cfg : ServerCfg) (req : Req)
    (h : ∀ e ∈ cfg.location_actions, jsStartsWith req.pathname e.1 = false) :
    fetchDispatch env cfg req
      = { matched := none, response := .ok none,
          location_actions := cfg.location_actions, warnings := [] } := by
  rw [fetchDispatch, fetchLoop_none h]

theorem no_match_yields_no_response_no_warning_witness :
    fetchDispatch wEnv cfg9 (reqGet "/elsewhere")
      = { matched := none, response := .ok none,
          location_actions := cfg9.location_actions, warnings := [] } :=
  no_match_yields_no_response_no_warning wEnv cfg9 (reqGet "/elsewhere") (by decide)

/-- C3: outside the preflight special case, runActions runs the directive
loop over the declaration-ordered entries of the (CORS-augmented, but
directive-wise unchanged) location object; the loop returns, through the
header cascade, the response of the first handler whose status is at
least 200, skipping handlers that yield nothing or a lower status; the
proxy_http_version and proxy_cache_bypass directives are present in the
handler table, yield nothing, and never terminate the loop. -/
theorem runActions_first_success :
    (∀ (env : Env) (cfg : ServerCfg) (req : Req) (pfx : Option String) (actions : LocActions),
      ¬(req.method = "OPTIONS" ∧ hHas req.headers "access-control-request-method" = true) →
      (runActions env cfg req pfx actions).response
        = actionsLoop env cfg req pfx (corsAugment env req actions)
            (corsAugment env req actions).dirs)
    ∧ (∀ (env : Env) (req : Req) (actions : LocActions),
      (corsAugment env req actions).dirs = actions.dirs)
    ∧ (∀ (env : Env) (cfg : ServerCfg) (req : Req) (pfx : Option String) (actions : LocActions)
        pre name arg rest r,
      (∀ e ∈ pre, producesNoResponse (runHandler env cfg req pfx e.1 e.2)) →
      runHandler env cfg req pfx name arg = .ok (some r) →
      200 ≤ r.status →
      actionsLoop env cfg req pfx actions (pre ++ (name, arg) :: rest)
        = .ok (some (withHeaders env cfg actions.add_header r).1))
    ∧ (∀ (env : Env) (cfg : ServerCfg) (req : Req) (pfx : Option String) (arg : AVal),
      runHandler env cfg req pfx "proxy_http_version" arg = .ok none
      ∧ runHandler env cfg req pfx "proxy_cache_bypass" arg = .ok none)
    ∧ ("proxy_http_version" ∈ location_handlers ∧ "proxy_cache_bypass" ∈ location_handlers)
    ∧ (∀ (env : Env) (cfg : ServerCfg) (req : Req) (pfx : Option String)
        (actions : LocActions) (arg : AVal) rest,
      actionsLoop env cfg req pfx actions (("proxy_http_version", arg) :: rest)
        = actionsLoop env cfg req pfx actions rest
      ∧ actionsLoop env cfg req pfx actions (("proxy_cache_bypass", arg) :: rest)
        = actionsLoop env cfg req pfx actions rest) := by
  refine ⟨?_, ?_, ?_, ?_, ?_, ?_⟩
  · intro env cfg req pfx actions h
    rw [runActions, if_neg]
    simp only [Bool.and_eq_true, beq_iff_eq]
    exact h
  · intro env req actions
    rw [corsAugment]
    cases hc : env.cors with
    | false => rfl
    | true =>
      cases ho : reqHeader req "origin" with
      | none => rfl
      | some o =>
        by_cases he : o = ""
        · simp [he]
        · simp [he]
  · intro env cfg req pfx actions pre name arg rest r hpre hname hst
    induction pre with
    | nil =>
      rw [List.nil_append, actionsLoop, hname]
      exact if_pos hst
    | cons e es ih =>
      have he := hpre e (List.mem_cons_self e es)
      have ih' := ih fun e' he' => hpre e' (List.mem_cons_of_mem _ he')
      rw [List.cons_append]
      cases e with
      | mk en ea =>
        rcases he with he | ⟨r', hr', hlt⟩
        · rw [actionsLoop, he]
          exact ih'
        · rw [actionsLoop, hr']
          have hn : ¬(200 ≤ r'.status) := by omega
          exact (if_neg hn).trans ih'
  · intro env cfg req pfx arg
    exact ⟨rfl, rfl⟩
  · exact ⟨by simp [location_handlers], by simp [location_handlers]⟩
  · intro env cfg req pfx actions arg rest
    exact ⟨rfl, rfl⟩

def loc3 : LocActions :=
  ⟨[], [("proxy_http_version", .str "1.1"), ("try_files", .str "/a.html")], none⟩

theorem runActions_first_success_witness :
    actionsLoop wEnv (cfgOf []) (reqGet "/x") none loc3
        ([("proxy_http_version", AVal.str "1.1")] ++ ("try_files", AVal.str "/a.html") :: [])
      = .ok (some (withHeaders wEnv (cfgOf []) loc3.add_header
          ⟨200, .file "/www/a.html", []⟩).1) :=
  runActions_first_success.2.2.1 wEnv (cfgOf []) (reqGet "/x") none loc3
    [("proxy_http_version", AVal.str "1.1")] "try_files" (AVal.str "/a.html") []
    ⟨200, .file "/www/a.html", []⟩
    (by
      intro e he
      rw [List.mem_singleton] at he
      subst he
      exact Or.inl rfl)
    rfl
    (by decide)

theorem tryIndexes_eq_find (env : Env) (dir : String) (idxs : List String) :
    tryIndexes env dir idxs
      = (idxs.find? (fun i => env.fsExists (dir ++ i))).map
          (fun i => ⟨200, .file (dir ++ i), []⟩) := by
  induction idxs with
  | nil => rfl
  | cons i rest ih =>
    by_cases h : env.fsExists (dir ++ i)
    · rw [tryIndexes, if_pos h,
        List.find?_cons_of_pos (p := fun j => env.fsExists (dir ++ j)) rest h]
      rfl
    · rw [tryIndexes, if_neg h, ih,
        List.find?_cons_of_neg (p := fun j => env.fsExists (dir ++ j)) rest h]

theorem tryEntries_cons_path (env : Env) (cfg : ServerCfg) (req : Req)
    (entry : String) (rest : List String) (fp : String)
    (hne : entry ≠ "=404") (hfp : tryFilesPath cfg req entry = some fp) :
    tryEntries env cfg req (entry :: rest)
      = if jsEndsWith entry "/" then
          (match tryIndexes env fp cfg.index with
           | some r => .ok (some r)
           | none => tryEntries env cfg req rest)
        else if env.fsExists fp then .ok (some ⟨200, .file fp, []⟩)
        else tryEntries env cfg req rest := by
  rw [tryEntries, if_neg hne, hfp]

/-- C4: try_files evaluates the space-split candidates left to right: a
literal =404 candidate returns 404 with an empty body at once; a
candidate ending in a slash tries the configured index names in order
appended to the resolved directory (the entry with $uri substituted and
percent escapes decoded) and streams the first existing one with 200;
any other candidate streams the resolved file with 200 when it exists;
an exhausted candidate list yields no response; and a candidate whose
percent-decoding fails (a byte at 0x80 or above) makes the handler
throw the URIError, as the source does. -/
theorem try_files_semantics :
    (∀ (env : Env) (cfg : ServerCfg) (req : Req) (argument : String),
      try_files env cfg req argument = tryEntries env cfg req (jsSplitSpace argument))
    ∧ (∀ (env : Env) (cfg : ServerCfg) (req : Req) rest,
      tryEntries env cfg req ("=404" :: rest) = .ok (some ⟨404, .empty, []⟩))
    ∧ (∀ (env : Env) (cfg : ServerCfg) (req : Req) entry rest fp,
      entry ≠ "=404" → jsEndsWith entry "/" = true →
      tryFilesPath cfg req entry = some fp →
      tryEntries env cfg req (entry :: rest)
        = match (cfg.index.find? (fun i => env.fsExists (fp ++ i))) with
          | some i => .ok (some ⟨200, .file (fp ++ i), []⟩)
          | none => tryEntries env cfg req rest)
    ∧ (∀ (env : Env) (cfg : ServerCfg) (req : Req) entry rest fp,
      entry ≠ "=404" → jsEndsWith entry "/" = false →
      tryFilesPath cfg req entry = some fp →
      tryEntries env cfg req (entry :: rest)
        = if env.fsExists fp then .ok (some ⟨200, .file fp, []⟩)
          else tryEntries env cfg req rest)
    ∧ (∀ (env : Env) (cfg : ServerCfg) (req : Req) entry rest,
      entry ≠ "=404" → tryFilesPath cfg req entry = none →
      tryEntries env cfg req (entry :: rest) = .error uriError)
    ∧ (∀ (env : Env) (cfg : ServerCfg) (req : Req),
      tryEntries env cfg req [] = .ok none) := by
  refine ⟨fun _ _ _ _ => rfl, fun _ _ _ _ => rfl, ?_, ?_, ?_, fun _ _ _ => rfl⟩
  · intro env cfg req entry rest fp hne hsl hfp
    rw [tryEntries_cons_path env cfg req entry rest fp hne hfp, if_pos hsl,
      tryIndexes_eq_find]
    cases cfg.index.find? (fun i => env.fsExists (fp ++ i)) with
    | none => rfl
    | some i => rfl
  · intro env cfg req entry rest fp hne hsl hfp
    rw [tryEntries_cons_path env cfg req entry rest fp hne hfp,
      if_neg (by simp [hsl])]
  · intro env cfg req entry rest hne hfp
    rw [tryEntries, if_neg hne, hfp]

theorem try_files_semantics_witness :
    (tryEntries wEnv (cfgOf []) (reqGet "/sub") ["$uri/"]
      = match ((cfgOf []).index.find? (fun i => wEnv.fsExists ("/www/sub/" ++ i))) with
        | some i => .ok (some ⟨200, .file ("/www/sub/" ++ i), []⟩)
        | none => tryEntries wEnv (cfgOf []) (reqGet "/sub") [])
    ∧ tryEntries wEnv (cfgOf []) (reqGet "/caf%C3%A9") ["$uri"] = .error uriError :=
  ⟨try_files_semantics.2.2.1 wEnv (cfgOf []) (reqGet "/sub") "$uri/" [] "/www/sub/"
      (by decide) (by decide) (by decide),
   try_files_semantics.2.2.2.2.1 wEnv (cfgOf []) (reqGet "/caf%C3%A9") "$uri" []
      (by decide) (by decide)⟩

theorem collapseL_head (xs : List Char) (x : Char) :
    (collapseL (x :: xs)).head? = some x := by
  induction xs generalizing x with
  | nil => rfl
  | cons b rest ih =>
    simp only [collapseL]
    by_cases h : x = '/' ∧ b = '/'
    · rw [if_pos h, ih b, h.2, h.1]
    · rw [if_neg h]
      rfl

theorem collapseL_chain (l : List Char) :
    (collapseL l).Chain' (fun a b => ¬(a = '/' ∧ b = '/')) := by
  induction l with
  | nil => simp [collapseL]
  | cons a tail ih =>
    cases tail with
    | nil => simp [collapseL]
    | cons b rest =>
      simp only [collapseL]
      by_cases h : a = '/' ∧ b = '/'
      · rw [if_pos h]
        exact ih
      · rw [if_neg h]
        refine List.chain'_cons'.mpr ⟨?_, ih⟩
        intro y hy
        rw [collapseL_head rest b] at hy
        cases hy
        exact h

/-- C5: proxy_pass strips the matched pattern from the request path
exactly when the upstream argument ends in a slash and the matched
pattern ends in a slash or is absent, and appends the full path
otherwise; the concatenated path is collapsed so that no two adjacent
slashes remain; the query string is appended verbatim; the computed URL
is the one handed to the upstream fetch; on the two canonical inputs the
target http://upstream/ at pattern /api/ for /api/foo?x=1 forwards to
http://upstream/foo?x=1 while at pattern /api it forwards to
http://upstream/api/foo?x=1. -/
theorem proxy_pass_url_rewrite :
    (∀ argument p, p ≠ "" →
      shouldStrip argument (some p) = (jsEndsWith argument "/" && jsEndsWith p "/"))
    ∧ (∀ argument, shouldStrip argument none = jsEndsWith argument "/")
    ∧ (∀ argument pfx pathname search base, parseUrl argument = some base →
      proxyUrl argument pfx pathname search
        = some (base.scheme ++ "://" ++ base.host
            ++ collapseSlashes (base.path
                ++ (if shouldStrip argument pfx then jsSlice pathname (jsLen (pfx.getD ""))
                    else pathname))
            ++ search))
    ∧ (∀ s, (collapseSlashes s).data.Chain' (fun a b => ¬(a = '/' ∧ b = '/')))
    ∧ (∀ (env : Env) (req : Req) (pfx : Option String) argument u,
      proxyUrl argument pfx req.pathname req.search = some u →
      env.upgradeOk = false →
      proxy_pass env req pfx argument = (env.upstream u).map stripContentEncoding)
    ∧ proxyUrl "http://upstream/" (some "/api/") "/api/foo" "?x=1"
        = some "http://upstream/foo?x=1"
    ∧ proxyUrl "http://upstream/" (some "/api") "/api/foo" "?x=1"
        = some "http://upstream/api/foo?x=1" := by
  refine ⟨?_, ?_, ?_, ?_, ?_, rfl, rfl⟩
  · intro argument p hp
    simp [shouldStrip, jsFalsy, hp]
  · intro argument
    simp [shouldStrip, jsFalsy]
  · intro argument pfx pathname search base h
    rw [proxyUrl, h]
  · intro s
    exact collapseL_chain s.data
  · intro env req pfx argument u h hu
    rw [proxy_pass, h, hu]
    cases hup : env.upstream u with
    | error e => simp [hup, Except.map]
    | ok r => simp [hup, Except.map]

theorem proxy_pass_url_rewrite_witness :
    shouldStrip "http://upstream/" (some "/api")
        = (jsEndsWith "http://upstream/" "/" && jsEndsWith "/api" "/")
    ∧ proxy_pass wEnv ⟨"GET", "/api/foo", "?x=1", []⟩ (some "/api/") "http://upstream/"
        = (wEnv.upstream "http://upstream/foo?x=1").map stripContentEncoding :=
  ⟨proxy_pass_url_rewrite.1 "http://upstream/" "/api" (by decide),
   proxy_pass_url_rewrite.2.2.2.2.1 wEnv ⟨"GET", "/api/foo", "?x=1", []⟩
     (some "/api/") "http://upstream/" "http://upstream/foo?x=1" rfl rfl⟩

theorem hMatches_self (n : String) : hMatches n n = true := by
  simp [hMatches]

theorem hValues_cons (m w n : String) (rest : HdrList) :
    hValues ((m, w) :: rest) n
      = if hMatches m n then w :: hValues rest n else hValues rest n := by
  by_cases h : hMatches m n <;> simp [hValues, List.filter_cons, h]

theorem hValues_hRemove (hs : HdrList) (n : String) : hValues (hRemove hs n) n = [] := by
  simp [hValues, hRemove, List.filter_filter]

theorem hValues_hAppend (hs : HdrList) (n v : String) :
    hValues (hAppend hs n v) n = hValues hs n ++ [v] := by
  simp [hAppend, hValues, List.filter_append, hMatches_self]

theorem hValues_hSet (hs : HdrList) (n v : String) : hValues (hSet hs n v) n = [v] := by
  induction hs with
  | nil => simp [hSet, hValues, hMatches_self]
  | cons e rest ih =>
    cases e with
    | mk m w =>
      by_cases h : hMatches m n
      · rw [hSet, if_pos h, hValues_cons, if_pos h, hValues_hRemove]
      · rw [hSet, if_neg h, hValues_cons, if_neg h, ih]

theorem setResponseHeaders_append (st : HdrSt) (l1 l2 : List String) :
    setResponseHeaders st (l1 ++ l2) = setResponseHeaders (setResponseHeaders st l1) l2 := by
  simp [setResponseHeaders, List.foldl_append]

/-- C6: withHeaders applies the add_header entries of the three scopes as
one pass in the fixed order global, server, location (the location list
being whatever the add_header array of the actions object holds at call
time, so CORS-synthesized entries ride along); each entry is applied
under its parsed lower-cased name, appended for the eight listed
multi-value names and set-overwriting for every other name. -/
theorem header_cascade_order_and_semantics :
    (∀ (env : Env) (cfg : ServerCfg) (locAdd : List String) (r : Resp),
      withHeaders env cfg locAdd r
        = ({ r with headers := (setResponseHeaders ⟨r.headers, []⟩
              (env.globalAddHeader ++ cfg.add_header ++ locAdd)).hs },
           (setResponseHeaders ⟨r.headers, []⟩
              (env.globalAddHeader ++ cfg.add_header ++ locAdd)).altered))
    ∧ (∀ (st : HdrSt) header, multi_value_headers.contains (parseHeader header).1 = true →
      (applyHeader st header).hs = st.hs ++ [((parseHeader header).1, (parseHeader header).2)])
    ∧ (∀ (st : HdrSt) header, multi_value_headers.contains (parseHeader header).1 = false →
      (applyHeader st header).hs = hSet st.hs (parseHeader header).1 (parseHeader header).2)
    ∧ (∀ (hs : HdrList) n v, hValues (hAppend hs n v) n = hValues hs n ++ [v])
    ∧ (∀ (hs : HdrList) n v, hValues (hSet hs n v) n = [v])
    ∧ multi_value_headers
        = ["cache-control", "accept-ranges", "content-encoding", "www-authenticate",
           "warning", "allow", "vary", "link"] := by
  refine ⟨?_, ?_, ?_, hValues_hAppend, hValues_hSet, rfl⟩
  · intro env cfg locAdd r
    rw [setResponseHeaders_append, setResponseHeaders_append]
    rfl
  · intro st header h
    have e1 : (applyHeader st header).hs
        = if multi_value_headers.contains (parseHeader header).1 = true
          then hAppend st.hs (parseHeader header).1 (parseHeader header).2
          else hSet st.hs (parseHeader header).1 (parseHeader header).2 := rfl
    rw [e1, if_pos h]
    rfl
  · intro st header h
    have e1 : (applyHeader st header).hs
        = if multi_value_headers.contains (parseHeader header).1 = true
          then hAppend st.hs (parseHeader header).1 (parseHeader header).2
          else hSet st.hs (parseHeader header).1 (parseHeader header).2 := rfl
    rw [e1, if_neg]
    rw [h]
    exact Bool.false_ne_true

theorem header_cascade_order_and_semantics_witness :
    (applyHeader ⟨[], []⟩ "cache-control no-store").hs
        = [] ++ [((parseHeader "cache-control no-store").1,
                  (parseHeader "cache-control no-store").2)]
    ∧ (applyHeader ⟨[], []⟩ "x-custom abc").hs
        = hSet [] (parseHeader "x-custom abc").1 (parseHeader "x-custom abc").2 :=
  ⟨header_cascade_order_and_semantics.2.1 ⟨[], []⟩ "cache-control no-store" (by decide),
   header_cascade_order_and_semantics.2.2.1 ⟨[], []⟩ "x-custom abc" (by decide)⟩

/-- C7 counterexample: the header cascade performs no access-control
processing at all: an entry carrying a trailing space-always token is
emitted with the token intact (not stripped to the bare value), and an
allow-headers entry carrying the request-header placeholder is emitted
literally instead of being substituted or skipped, the cascade having no
access to the request in the first place. -/
theorem header_cascade_no_cors_processing_counterexample :
    (withHeaders env7 (cfgOf []) [] ⟨200, .empty, []⟩).1.headers
      = [("access-control-allow-origin", "* always"),
         ("access-control-allow-headers", "$http_access_control_request_headers")]
    ∧ "* always" ≠ "*" :=
  ⟨rfl, by decide⟩

/-- C7 (amended): every add_header entry applied by the cascade is
emitted exactly once with its parsed name and value verbatim: no
space-always stripping, no placeholder substitution and no skipping
occur there (the only space-always cleanup in the source is the
quote-sensitive replace on the final preflight header values), and the
effect of an entry depends on the entry only through parseHeader. -/
theorem header_cascade_applies_entries_verbatim :
    (∀ (st : HdrSt) entries,
      (setResponseHeaders st entries).altered = st.altered ++ entries.map parseHeader)
    ∧ (∀ (st : HdrSt) h1 h2, parseHeader h1 = parseHeader h2 →
      applyHeader st h1 = applyHeader st h2) := by
  constructor
  · intro st entries
    induction entries generalizing st with
    | nil => simp [setResponseHeaders]
    | cons e rest ih =>
      show (setResponseHeaders (applyHeader st e) rest).altered = _
      rw [ih]
      simp [applyHeader]
  · intro st h1 h2 h
    simp [applyHeader, h]

theorem header_cascade_applies_entries_verbatim_witness :
    applyHeader ⟨[], []⟩ "X-Test abc" = applyHeader ⟨[], []⟩ "x-test abc" :=
  header_cascade_applies_entries_verbatim.2 ⟨[], []⟩ "X-Test abc" "x-test abc" (by decide)

/-- C8 (bug evidence): a connection-refused upstream rejection propagates
out of the fetch handler as an uncaught error instead of a response: the
dispatcher never invokes errorResponse, even though that function, fed
the same rejection, would produce exactly the labeled 500 with the error
code, the unreachable path (development environment) and the request
correlation id that the specification promises. -/
theorem upstream_error_propagates_uncaught :
    (fetchDispatch env8 cfg8 (reqGet "/api/x")).response = .error errConn
    ∧ (fetchDispatch env8 cfg8 (reqGet "/api/x")).matched = some "/api"
    ∧ errorResponse env8 errConn "req-1"
        = ⟨500, .text "ConnectionRefused: Unable to connect to upstream server http://127.0.0.1:9/api/x\nRequest ID: req-1", []⟩ :=
  ⟨rfl, rfl, rfl⟩

/-- The state of the location object after runActions is exactly the
CORS-augmented object, on every control path of the call. -/
theorem runActions_actions_state (env : Env) (cfg : ServerCfg) (req : Req)
    (pfx : Option String) (actions : LocActions) :
    (runActions env cfg req pfx actions).actions = corsAugment env req actions := by
  simp only [runActions]
  split
  · split
    · rfl
    · rfl
  · rfl

/-- With CORS on and a truthy Origin header, the augmented add_header
list is the stored list followed by the synthesized allow-origin entry
and possibly further synthesized entries. -/
theorem corsAugment_grows (env : Env) (req : Req) (actions : LocActions) (o : String)
    (hc : env.cors = true) (ho : reqHeader req "origin" = some o) (hne : o ≠ "") :
    ∃ extra, (corsAugment env req actions).add_header
      = actions.add_header ++ ("access-control-allow-origin " ++ o) :: extra := by
  simp only [corsAugment, hc, ho, if_neg hne, if_true]
  split
  · split
    · exact ⟨[], by simp⟩
    · exact ⟨["access-control-allow-methods GET, POST, OPTIONS"], by simp⟩
  · split
    · exact ⟨["access-control-allow-headers "
          ++ ((reqHeader req "access-control-request-headers").getD "")], by simp⟩
    · exact ⟨["access-control-allow-headers "
          ++ ((reqHeader req "access-control-request-headers").getD ""),
        "access-control-allow-methods GET, POST, OPTIONS"], by simp⟩

/-- C10: with CORS enabled and an Origin header present, runActions
pushes the synthesized allow-origin entry onto the add_header array of
the stored location object itself (the state it returns is the state
stored back into the table), so the stored list grows by at least one
entry on every such request, and an origin entry synthesized for an
earlier request is still in the add_header list with which a later
request to the same location runs. -/
theorem cors_origin_pushed_onto_stored_actions :
    (∀ (env : Env) (cfg : ServerCfg) (req : Req) (pfx : Option String) (actions : LocActions),
      (runActions env cfg req pfx actions).actions = corsAugment env req actions)
    ∧ (∀ (env : Env) (req : Req) (actions : LocActions) o,
      env.cors = true → reqHeader req "origin" = some o → o ≠ "" →
      (∃ extra, (corsAugment env req actions).add_header
          = actions.add_header ++ ("access-control-allow-origin " ++ o) :: extra)
      ∧ actions.add_header.length < (corsAugment env req actions).add_header.length)
    ∧ (∀ (env : Env) (cfg : ServerCfg) (req1 req2 : Req) pre p a rest o,
      env.cors = true →
      cfg.location_actions = pre ++ (p, a) :: rest →
      (∀ e ∈ pre, jsStartsWith req1.pathname e.1 = false) →
      jsStartsWith req1.pathname p = true →
      (∀ e ∈ pre, jsStartsWith req2.pathname e.1 = false) →
      jsStartsWith req2.pathname p = true →
      reqHeader req1 "origin" = some o → o ≠ "" →
      (fetchDispatch env cfg req1).location_actions
          = pre ++ (p, corsAugment env req1 a) :: rest
      ∧ ("access-control-allow-origin " ++ o) ∈ (corsAugment env req1 a).add_header
      ∧ (fetchDispatch env
            { cfg with location_actions := (fetchDispatch env cfg req1).location_actions }
            req2).matched = some p
      ∧ (fetchDispatch env
            { cfg with location_actions := (fetchDispatch env cfg req1).location_actions }
            req2).response
          = (runActions env
              { cfg with location_actions := (fetchDispatch env cfg req1).location_actions }
              req2 (some p) (corsAugment env req1 a)).response) := by
  refine ⟨runActions_actions_state, ?_, ?_⟩
  · intro env req actions o hc ho hne
    rcases corsAugment_grows env req actions o hc ho hne with ⟨extra, hex⟩
    refine ⟨⟨extra, hex⟩, ?_⟩
    rw [hex]
    simp
  · intro env cfg req1 req2 pre p a rest o hc htbl hpre1 hp1 hpre2 hp2 ho hne
    have hkey : ∀ e ∈ pre, e.1 ≠ p := by
      intro e he hep
      have hf := hpre1 e he
      rw [hep, hp1] at hf
      exact Bool.noConfusion hf
    have h1 : (fetchDispatch env cfg req1).location_actions
        = pre ++ (p, corsAugment env req1 a) :: rest := by
      rw [fetchDispatch, htbl, fetchLoop_append hpre1, fetchLoop_cons_match hp1]
      show tblSet (pre ++ (p, a) :: rest) p (runActions env cfg req1 (some p) a).actions = _
      rw [runActions_actions_state, tblSet_append hkey]
    refine ⟨h1, ?_, ?_, ?_⟩
    · rcases corsAugment_grows env req1 a o hc ho hne with ⟨extra, hex⟩
      rw [hex]
      exact List.mem_append_right _ (List.mem_cons_self _ _)
    · rw [fetchDispatch]
      show (match fetchLoop env _ req2 (fetchDispatch env cfg req1).location_actions with
        | some (pfx, rr) => _ | none => _ : FetchOutcome).matched = some p
      rw [h1, fetchLoop_append hpre2, fetchLoop_cons_match hp2]
    · rw [fetchDispatch]
      show (match fetchLoop env _ req2 (fetchDispatch env cfg req1).location_actions with
        | some (pfx, rr) => _ | none => _ : FetchOutcome).response = _
      rw [h1, fetchLoop_append hpre2, fetchLoop_cons_match hp2]

theorem cors_origin_pushed_onto_stored_actions_witness :
    (fetchDispatch env10 cfg10 req10a).location_actions
        = [] ++ ("/app", corsAugment env10 req10a loc10) :: []
    ∧ ("access-control-allow-origin " ++ "http://a.example")
        ∈ (corsAugment env10 req10a loc10).add_header
    ∧ (fetchDispatch env10
          { cfg10 with location_actions := (fetchDispatch env10 cfg10 req10a).location_actions }
          req10b).matched = some "/app"
    ∧ (fetchDispatch env10
          { cfg10 with location_actions := (fetchDispatch env10 cfg10 req10a).location_actions }
          req10b).response
        = (runActions env10
            { cfg10 with location_actions := (fetchDispatch env10 cfg10 req10a).location_actions }
            req10b (some "/app") (corsAugment env10 req10a loc10)).response :=
  cors_origin_pushed_onto_stored_actions.2.2 env10 cfg10 req10a req10b
    [] "/app" loc10 [] "http://a.example"
    rfl rfl (by decide) (by decide) (by decide) (by decide) rfl (by decide)

end Zerv
